import Mathlib

/-!
Verification of the scull pipe circular-buffer channel from
`src/scullp/main.c` (struct scullp with fields `buffer`, `size`,
`readp`, `writep`, and the operations `readable_size`, `writable_size`,
`scullp_read`, `scullp_write`, `scullp_poll`, and the module init
rollback loop of `scullp_init`).

The embedding is a faithful translation of the C functions into pure
Lean functions.  Bytes are modelled as `Nat`, the backing store as a
`List Nat` of length `size`.  The blocking wait loops are modelled at
the point where the availability predicate is already decided: when the
buffer is empty (for read) or full (for write) the non-blocking path is
taken, returning `EAGAIN` (= `WouldBlock`), exactly as the code does
for an `O_NONBLOCK` file.  The outcome of `copy_to_user` /
`copy_from_user` (an external nondeterminism: whether the caller's
buffer is accessible) is passed in as a `copyOk : Bool` oracle.
-/

namespace Scullp

/-- Error numbers the data-path operations of `main.c` can return
(negated errno constants in the C source). -/
inductive Errno where
  | EAGAIN
  | EFAULT
  deriving DecidableEq, Repr

/-- The scull pipe device state: `struct scullp`'s buffer-related
fields.  `buffer` is the backing store (length `size`), `readp` and
`writep` the two cursors. -/
structure scullp where
  size : Nat
  buffer : List Nat
  readp : Nat
  writep : Nat
  deriving DecidableEq, Repr

/-- Well-formedness of a device state: the backing store has length
`size` and both cursors are strictly inside the buffer.  This is the
state invariant established by `scullp_initialize` (`readp = writep = 0`,
buffer of `size` zero bytes). -/
def wf (s : scullp) : Prop :=
  s.buffer.length = s.size ∧ s.readp < s.size ∧ s.writep < s.size

instance (s : scullp) : Decidable (wf s) := by
  unfold wf; infer_instance

/-- `readable_size` from `main.c`:
`(s->writep + s->size - s->readp) % s->size`. -/
def readable_size (s : scullp) : Nat :=
  (s.writep + s.size - s.readp) % s.size

/-- `writable_size` from `main.c`: `s->size - 1` when empty, otherwise
`((s->readp + s->size - s->writep) % s->size) - 1` (one slot is kept
unusable to tell full from empty). -/
def writable_size (s : scullp) : Nat :=
  if s.readp = s.writep then s.size - 1
  else (s.readp + s.size - s.writep) % s.size - 1

/-- `copy_from_user(s->buffer + pos, buf, len)` on the model buffer:
overwrite `data.length` bytes starting at `pos`. -/
def copy_from_user (buffer : List Nat) (pos : Nat) (data : List Nat) : List Nat :=
  buffer.take pos ++ data ++ buffer.drop (pos + data.length)

/-- `scullp_read` from `main.c`, at the point where the wait loop has
been decided: if nothing is readable the non-blocking path returns
`-EAGAIN`; otherwise the length is clamped to `readable_size` and, when
the data wraps (`readp > writep`), to the contiguous tail
`size - readp`; `copy_to_user` failure (`copyOk = false`) returns
`-EFAULT` with no cursor movement; on success `readp` advances and
wraps to `0` exactly when it reaches `size`.  Returns the transferred
bytes and the new state. -/
def scullp_read (copyOk : Bool) (s : scullp) (len : Nat) :
    Except Errno (List Nat) × scullp :=
  let size := readable_size s
  if size = 0 then (.error .EAGAIN, s)
  else
    let len := min len size
    let len := if s.readp > s.writep then min len (s.size - s.readp) else len
    if copyOk then
      let readp := s.readp + len
      let readp := if readp = s.size then 0 else readp
      (.ok ((s.buffer.drop s.readp).take len), { s with readp := readp })
    else (.error .EFAULT, s)

/-- `scullp_write` from `main.c`, at the point where the wait loop has
been decided: if no space is writable the non-blocking path returns
`-EAGAIN`; otherwise the length is clamped to `writable_size` and, when
`writep >= readp`, to the contiguous tail `size - writep`;
`copy_from_user` failure returns `-EFAULT` with no cursor movement; on
success the bytes are stored at `writep`, which advances and wraps to
`0` exactly when it reaches `size`.  Returns the committed length and
the new state. -/
def scullp_write (copyOk : Bool) (s : scullp) (data : List Nat) :
    Except Errno Nat × scullp :=
  let size := writable_size s
  if size = 0 then (.error .EAGAIN, s)
  else
    let len := min data.length size
    let len := if s.writep ≥ s.readp then min len (s.size - s.writep) else len
    if copyOk then
      let writep := s.writep + len
      let writep := if writep = s.size then 0 else writep
      (.ok len,
       { s with buffer := copy_from_user s.buffer s.writep (data.take len),
                writep := writep })
    else (.error .EFAULT, s)

/-- `POLLIN` mask bit. -/
def POLLIN : Nat := 1
/-- `POLLRDNORM` mask bit. -/
def POLLRDNORM : Nat := 64
/-- `POLLOUT` mask bit. -/
def POLLOUT : Nat := 4
/-- `POLLWRNORM` mask bit. -/
def POLLWRNORM : Nat := 256

/-- `scullp_poll` from `main.c`: build the event mask from
`readable_size` and `writable_size`.  The C function only reads the
device state under the lock, so the model is a pure function of `s`. -/
def scullp_poll (s : scullp) : Nat :=
  let ret : Nat := 0
  let ret := if 0 < readable_size s then ret ||| (POLLIN ||| POLLRDNORM) else ret
  let ret := if 0 < writable_size s then ret ||| (POLLOUT ||| POLLWRNORM) else ret
  ret

/-- The committed (readable) content of the circular buffer, in read
order: the bytes from `readp` up to `writep`, wrapping past the end of
the backing store when `readp > writep`. -/
def contents (s : scullp) : List Nat :=
  if s.readp ≤ s.writep then (s.buffer.drop s.readp).take (s.writep - s.readp)
  else s.buffer.drop s.readp ++ s.buffer.take s.writep

deriving instance DecidableEq for Except

/-- One pass of a sequence of write calls with no intervening reads:
feed each chunk to `scullp_write` once, collecting the bytes each call
actually committed (`d.take len` for a call returning `len`; nothing
for a call rejected with the buffer full). -/
def writeSeq : scullp → List (List Nat) → scullp × List Nat
  | s, [] => (s, [])
  | s, d :: ds =>
    let r := scullp_write true s d
    let c := match r.1 with
      | .ok len => d.take len
      | .error _ => []
    let rest := writeSeq r.2 ds
    (rest.1, c ++ rest.2)

/-- Drain loop for a full payload: call `scullp_write` repeatedly,
dropping the committed prefix each time, until everything is committed
(the pipe contract: a short write means call again with the rest).
`fuel` bounds the number of calls; `none` means the loop could not
finish within `fuel` calls or a call failed. -/
def writeAll : Nat → scullp → List Nat → Option scullp
  | _, s, [] => some s
  | 0, _, _ :: _ => none
  | fuel+1, s, d :: ds =>
    let r := scullp_write true s (d :: ds)
    match r.1 with
    | .ok len => writeAll fuel r.2 ((d :: ds).drop len)
    | .error _ => none

/-- Fill loop for a read request of `n` bytes: call `scullp_read`
repeatedly with the remaining request, concatenating the chunks, until
`n` bytes have been read (a short read, e.g. from the wrap cap, means
call again with the rest). -/
def readAll : Nat → scullp → Nat → Option (List Nat × scullp)
  | _, s, 0 => some ([], s)
  | 0, _, _+1 => none
  | fuel+1, s, n+1 =>
    let r := scullp_read true s (n+1)
    match r.1 with
    | .ok out => (readAll fuel r.2 (n + 1 - out.length)).map fun p => (out ++ p.1, p.2)
    | .error _ => none

/-- Lifecycle state of one slot of the static `scullps[]` array, as
observable after `scullp_init`: `uninit` means no storage was ever
allocated (or `kzalloc` failed), `active` means `scullp_initialize`
completed (storage allocated, cursors zeroed), `terminated` means
`scullp_terminate` ran (storage freed and fields reset). -/
inductive Slot where
  | uninit
  | active
  | terminated
  deriving DecidableEq, Repr

/-- The registration loop of `scullp_init`: for each slot `i` in order,
run `scullp_initialize` (whose `kzalloc` fails iff `allocFail i`) and
then `cdev_device_add` (which fails iff `regFail i`).  On the first
failure the loop stops, reporting the failing index `i` and the pool as
it stands (slot `i` already `active` if only registration failed). -/
def initFrom (allocFail regFail : Nat → Bool) : Nat → Nat → List Slot → Option Nat × List Slot
  | _, 0, pool => (none, pool)
  | i, k+1, pool =>
    if allocFail i then (some i, pool)
    else
      let pool' := pool.set i .active
      if regFail i then (some i, pool')
      else initFrom allocFail regFail (i+1) k pool'

/-- The rollback loop of `scullp_init`
(`for (j = 0; j < i; j++) scullp_terminate(s)`): terminate exactly the
slots `0..i-1`. -/
def terminateUpTo (pool : List Slot) (i : Nat) : List Slot :=
  (List.range pool.length).zipWith (fun j sl => if j < i then Slot.terminated else sl) pool

/-- `scullp_init` from `main.c` at pool granularity: run the
registration loop over the `n` slots and, if it failed at slot `i`,
roll back by terminating slots `0..i-1`.  Returns the failing index (or
`none` on success) and the final pool. -/
def scullp_init (n : Nat) (allocFail regFail : Nat → Bool) : Option Nat × List Slot :=
  match initFrom allocFail regFail 0 n (List.replicate n .uninit) with
  | (none, pool) => (none, pool)
  | (some i, pool) => (some i, terminateUpTo pool i)

/-- Write a whole payload into a channel with the drain loop, then read
its length back with the fill loop, returning the bytes read. -/
def roundTrip (s : scullp) (P : List Nat) : Option (List Nat) :=
  (writeAll P.length s P).bind fun s1 => (readAll P.length s1 P.length).map Prod.fst

/-- The bytes of the string `"ABCDEFG"` of the spec's Scenario A. -/
def ABCDEFG : List Nat := [65, 66, 67, 68, 69, 70, 71]

/-- Scenario A start: a freshly initialized channel of capacity 8. -/
def sA0 : scullp := ⟨8, List.replicate 8 0, 0, 0⟩
/-- Scenario A after writing `"ABCDEFG"`. -/
def sA1 : scullp := (scullp_write true sA0 ABCDEFG).2
/-- Scenario A after reading the 7 bytes back. -/
def sA2 : scullp := (scullp_read true sA1 7).2
/-- Scenario B state: capacity 8, `readp = 6`, `writep = 2`, bytes
`"WXYZ" = [87, 88, 89, 90]` stored at positions 6, 7, 0, 1. -/
def sB0 : scullp := ⟨8, [89, 90, 0, 0, 0, 0, 87, 88], 6, 2⟩
/-- An empty channel of capacity 8 whose cursors sit at offset 6. -/
def sC0 : scullp := ⟨8, List.replicate 8 0, 6, 6⟩
/-- Concrete well-formed state: fresh channel of capacity 4. -/
def w1 : scullp := ⟨4, [0, 0, 0, 0], 0, 0⟩
/-- Concrete state with 1 readable byte and 6 writable slots. -/
def w7 : scullp := ⟨8, [65, 0, 0, 0, 0, 0, 0, 0], 0, 1⟩
/-- Concrete *empty* channel of capacity 4 (0 readable bytes, 3
writable slots): the initial state of every device. -/
def wEmpty : scullp := ⟨4, [0, 0, 0, 0], 0, 0⟩
/-- Concrete *full* channel of capacity 4 (3 readable bytes, 0 writable
slots). -/
def wFull : scullp := ⟨4, [9, 9, 9, 0], 0, 3⟩

lemma readable_size_of_le (s : scullp) (h : wf s) (hle : s.readp ≤ s.writep) :
    readable_size s = s.writep - s.readp := by
  obtain ⟨-, hr, hw⟩ := h
  unfold readable_size
  have h1 : s.writep + s.size - s.readp = s.size + (s.writep - s.readp) := by omega
  rw [h1, Nat.add_mod_left]
  exact Nat.mod_eq_of_lt (by omega)

lemma readable_size_of_gt (s : scullp) (h : wf s) (hgt : s.writep < s.readp) :
    readable_size s = s.writep + s.size - s.readp := by
  obtain ⟨-, hr, hw⟩ := h
  exact Nat.mod_eq_of_lt (by omega)

lemma readable_size_lt (s : scullp) (h : wf s) : readable_size s < s.size := by
  obtain ⟨-, hr, -⟩ := h
  exact Nat.mod_lt _ (by omega)

/-- The two-branch `writable_size` always equals
`size - 1 - readable_size`. -/
lemma writable_size_eq (s : scullp) (h : wf s) :
    writable_size s = s.size - 1 - readable_size s := by
  obtain ⟨hb, hr, hw⟩ := h
  unfold writable_size
  rcases Nat.lt_trichotomy s.readp s.writep with hlt | heq | hgt
  · rw [if_neg (by omega), readable_size_of_le s ⟨hb, hr, hw⟩ (le_of_lt hlt),
      Nat.mod_eq_of_lt (by omega)]
    omega
  · rw [if_pos heq, readable_size_of_le s ⟨hb, hr, hw⟩ (le_of_eq heq)]
    omega
  · rw [if_neg (by omega), readable_size_of_gt s ⟨hb, hr, hw⟩ hgt]
    have h1 : s.readp + s.size - s.writep = s.size + (s.readp - s.writep) := by omega
    rw [h1, Nat.add_mod_left, Nat.mod_eq_of_lt (by omega)]
    omega

lemma readable_size_eq_length_contents (s : scullp) (h : wf s) :
    readable_size s = (contents s).length := by
  obtain ⟨hb, hr, hw⟩ := h
  unfold contents
  by_cases hle : s.readp ≤ s.writep
  · rw [if_pos hle, readable_size_of_le s ⟨hb, hr, hw⟩ hle]
    simp only [List.length_take, List.length_drop, hb]
    omega
  · rw [if_neg hle, readable_size_of_gt s ⟨hb, hr, hw⟩ (by omega)]
    simp only [List.length_append, List.length_drop, List.length_take, hb]
    omega

lemma copy_from_user_length (b d : List Nat) (p : Nat) (h : p + d.length ≤ b.length) :
    (copy_from_user b p d).length = b.length := by
  simp only [copy_from_user, List.length_append, List.length_take, List.length_drop]
  omega

/-- A write against a full buffer takes the non-blocking error path,
leaving the state untouched. -/
lemma scullp_write_full (copyOk : Bool) (s : scullp) (data : List Nat)
    (h : writable_size s = 0) :
    scullp_write copyOk s data = (.error .EAGAIN, s) := by
  unfold scullp_write
  simp [h]

/-- A read against an empty buffer takes the non-blocking error path,
leaving the state untouched. -/
lemma scullp_read_empty (copyOk : Bool) (s : scullp) (len : Nat)
    (h : readable_size s = 0) :
    scullp_read copyOk s len = (.error .EAGAIN, s) := by
  unfold scullp_read
  simp [h]


/-- Characterization of a successful `scullp_read` on a non-empty
buffer: it returns between 1 and `len` bytes, which are exactly the
first bytes of the committed content, and removes them from the
content.  When the data does not wrap (`readp <= writep`) the
transferred length is exactly `min len readable`. -/
lemma read_step (s : scullp) (n : Nat) (h : wf s) (hn : 0 < n)
    (hr : 0 < readable_size s) :
    ∃ out s', scullp_read true s n = (.ok out, s') ∧ wf s' ∧
      s'.size = s.size ∧ s'.buffer = s.buffer ∧ s'.writep = s.writep ∧
      0 < out.length ∧ out.length ≤ n ∧ out.length ≤ readable_size s ∧
      out = (contents s).take out.length ∧
      contents s' = (contents s).drop out.length ∧
      (s.readp ≤ s.writep → out.length = min n (readable_size s)) := by
  obtain ⟨hb, hrp, hwp⟩ := h
  by_cases hle : s.readp ≤ s.writep
  · have hread : readable_size s = s.writep - s.readp :=
      readable_size_of_le s ⟨hb, hrp, hwp⟩ hle
    set len := min n (readable_size s) with hlen
    have hlen0 : 0 < len := by omega
    have hlenle : len ≤ s.writep - s.readp := by omega
    have hfin : ¬ (s.readp + len = s.size) := by omega
    have hout : ((s.buffer.drop s.readp).take len).length = len := by
      simp only [List.length_take, List.length_drop, hb]; omega
    refine ⟨(s.buffer.drop s.readp).take len, { s with readp := s.readp + len },
      ?_, ⟨hb, by dsimp only; omega, hwp⟩, rfl, rfl, rfl,
      by omega, by omega, by omega, ?_, ?_, fun _ => hout⟩
    · simp only [scullp_read]
      rw [if_neg (show ¬ readable_size s = 0 by omega),
        if_neg (show ¬ s.readp > s.writep by omega), if_neg hfin]
      rfl
    · rw [hout]
      unfold contents
      rw [if_pos hle, List.take_take, Nat.min_eq_left (by omega)]
    · rw [hout]
      unfold contents
      dsimp only
      rw [if_pos (show s.readp + len ≤ s.writep by omega), if_pos hle,
        List.drop_take, List.drop_drop]
      congr 1
      omega
  · have hgt : s.writep < s.readp := by omega
    have hread : readable_size s = s.writep + s.size - s.readp :=
      readable_size_of_gt s ⟨hb, hrp, hwp⟩ hgt
    set len := min (min n (readable_size s)) (s.size - s.readp) with hlen
    have hlen0 : 0 < len := by omega
    have hlenle : len ≤ s.size - s.readp := by omega
    have hout : ((s.buffer.drop s.readp).take len).length = len := by
      simp only [List.length_take, List.length_drop, hb]; omega
    have hdroplen : (s.buffer.drop s.readp).length = len + ((s.size - s.readp) - len) := by
      simp only [List.length_drop, hb]; omega
    have houttake : (s.buffer.drop s.readp).take len = (contents s).take len := by
      unfold contents
      rw [if_neg (by omega), List.take_append_of_le_length (by simp only [List.length_drop, hb]; omega)]
    by_cases hwrap : s.readp + len = s.size
    · refine ⟨(s.buffer.drop s.readp).take len, { s with readp := 0 },
        ?_, ⟨hb, by dsimp only; omega, hwp⟩, rfl, rfl, rfl,
        by omega, by omega, by omega, by rw [hout]; exact houttake, ?_, by omega⟩
      · simp only [scullp_read]
        rw [if_neg (show ¬ readable_size s = 0 by omega),
          if_pos (show s.readp > s.writep by omega), if_pos hwrap]
        rfl
      · rw [hout]
        unfold contents
        dsimp only
        rw [if_pos (show (0:Nat) ≤ s.writep from Nat.zero_le _), if_neg (by omega),
          List.drop_zero, Nat.sub_zero,
          List.drop_left' (show (s.buffer.drop s.readp).length = len by
            simp only [List.length_drop, hb]; omega)]
    · have hfin : s.readp + len < s.size := by omega
      refine ⟨(s.buffer.drop s.readp).take len, { s with readp := s.readp + len },
        ?_, ⟨hb, by dsimp only; omega, hwp⟩, rfl, rfl, rfl,
        by omega, by omega, by omega, by rw [hout]; exact houttake, ?_, by omega⟩
      · simp only [scullp_read]
        rw [if_neg (show ¬ readable_size s = 0 by omega),
          if_pos (show s.readp > s.writep by omega), if_neg hwrap]
        rfl
      · rw [hout]
        unfold contents
        dsimp only
        rw [if_neg (show ¬ s.readp + len ≤ s.writep by omega), if_neg (by omega),
          List.drop_append_of_le_length (by simp only [List.length_drop, hb]; omega),
          List.drop_drop]

/-- Length of the committed content when the data does not wrap. -/
lemma contents_length_of_le (s : scullp) (hb : s.buffer.length = s.size)
    (hrp : s.readp < s.size) (hwp : s.writep < s.size) (hle : s.readp ≤ s.writep) :
    (contents s).length = s.writep - s.readp := by
  rw [← readable_size_eq_length_contents s ⟨hb, hrp, hwp⟩,
    readable_size_of_le s ⟨hb, hrp, hwp⟩ hle]

/-- Characterization of a successful `scullp_write` to a non-full
buffer: it commits between 0 and `data.length` bytes (at least 1 when
`data` is non-empty), appending exactly `data.take len` to the
committed content, without touching the read cursor. -/
lemma write_step (s : scullp) (data : List Nat) (h : wf s)
    (hv : 0 < writable_size s) :
    ∃ len s', scullp_write true s data = (.ok len, s') ∧ wf s' ∧
      s'.size = s.size ∧ s'.readp = s.readp ∧
      len ≤ data.length ∧ len ≤ writable_size s ∧ (0 < data.length → 0 < len) ∧
      contents s' = contents s ++ data.take len := by
  obtain ⟨hb, hrp, hwp⟩ := h
  have hweq : writable_size s = s.size - 1 - readable_size s :=
    writable_size_eq s ⟨hb, hrp, hwp⟩
  by_cases hge : s.writep ≥ s.readp
  · have hread : readable_size s = s.writep - s.readp :=
      readable_size_of_le s ⟨hb, hrp, hwp⟩ hge
    set len := min (min data.length (writable_size s)) (s.size - s.writep) with hlen
    have hlend : len ≤ data.length := by omega
    have hlenv : len ≤ writable_size s := by omega
    have hfit : s.writep + len ≤ s.size := by omega
    have htl : (data.take len).length = len := by
      simp only [List.length_take]; omega
    have hblen : (copy_from_user s.buffer s.writep (data.take len)).length = s.size := by
      rw [copy_from_user_length]
      · exact hb
      · rw [htl]; omega
    have htake_len : (s.buffer.take s.writep).length = s.writep := by
      simp only [List.length_take]; omega
    have hcl : (contents s).length = s.writep - s.readp :=
      contents_length_of_le s hb hrp hwp hge
    have hdropc : (s.buffer.take s.writep).drop s.readp = contents s := by
      unfold contents
      rw [if_pos hge, List.drop_take]
    by_cases hwrap : s.writep + len = s.size
    · have hrpos : 0 < s.readp := by omega
      refine ⟨len, ⟨s.size, copy_from_user s.buffer s.writep (data.take len), s.readp, 0⟩,
        ?_, ⟨by dsimp only; rw [hblen], by dsimp only; omega, by dsimp only; omega⟩,
        rfl, rfl, hlend, hlenv, by omega, ?_⟩
      · simp only [scullp_write]
        rw [if_neg (show ¬ writable_size s = 0 by omega), if_pos hge]
        rw [show min (min data.length (writable_size s)) (s.size - s.writep) = len from rfl]
        rw [if_pos (show s.writep + len = s.size from hwrap)]
        rfl
      · unfold contents
        dsimp only
        rw [if_neg (by omega)]
        unfold copy_from_user
        rw [htl, List.take_zero, List.append_nil,
          List.drop_of_length_le (show s.buffer.length ≤ s.writep + len by omega),
          List.append_nil,
          List.drop_append_of_le_length (by rw [htake_len]; omega),
          hdropc, if_pos hge, ← hdropc, List.drop_take]
    · have hfin : s.writep + len < s.size := by omega
      refine ⟨len, ⟨s.size, copy_from_user s.buffer s.writep (data.take len), s.readp, s.writep + len⟩,
        ?_, ⟨by dsimp only; rw [hblen], by dsimp only; omega, by dsimp only; omega⟩,
        rfl, rfl, hlend, hlenv, by omega, ?_⟩
      · simp only [scullp_write]
        rw [if_neg (show ¬ writable_size s = 0 by omega), if_pos hge]
        rw [show min (min data.length (writable_size s)) (s.size - s.writep) = len from rfl]
        rw [if_neg (show ¬ s.writep + len = s.size from hwrap)]
        rfl
      · unfold contents
        dsimp only
        rw [if_pos (by omega)]
        unfold copy_from_user
        rw [htl, List.append_assoc,
          List.drop_append_of_le_length (by rw [htake_len]; omega),
          hdropc,
          show s.writep + len - s.readp = (contents s).length + len by omega,
          List.take_append_eq_append_take,
          List.take_of_length_le (by omega),
          show (contents s).length + len - (contents s).length = len by omega,
          List.take_append_of_le_length (by rw [htl]),
          List.take_take, Nat.min_self, if_pos hge, ← hdropc, List.drop_take]
  · have hlt : s.writep < s.readp := by omega
    have hread : readable_size s = s.writep + s.size - s.readp :=
      readable_size_of_gt s ⟨hb, hrp, hwp⟩ hlt
    have hwv : writable_size s = s.readp - s.writep - 1 := by omega
    set len := min data.length (writable_size s) with hlen
    have hlend : len ≤ data.length := by omega
    have hlenv : len ≤ writable_size s := by omega
    have hfit : s.writep + len < s.readp := by omega
    have htl : (data.take len).length = len := by
      simp only [List.length_take]; omega
    have hblen : (copy_from_user s.buffer s.writep (data.take len)).length = s.size := by
      rw [copy_from_user_length]
      · exact hb
      · rw [htl]; omega
    have htake_len : (s.buffer.take s.writep).length = s.writep := by
      simp only [List.length_take]; omega
    have hadlen : (s.buffer.take s.writep ++ data.take len).length = s.writep + len := by
      rw [List.length_append, htake_len, htl]
    refine ⟨len, ⟨s.size, copy_from_user s.buffer s.writep (data.take len), s.readp, s.writep + len⟩,
      ?_, ⟨by dsimp only; rw [hblen], by dsimp only; omega, by dsimp only; omega⟩,
      rfl, rfl, hlend, hlenv, by omega, ?_⟩
    · simp only [scullp_write]
      rw [if_neg (show ¬ writable_size s = 0 by omega), if_neg (show ¬ s.writep ≥ s.readp by omega)]
      rw [show min data.length (writable_size s) = len from rfl]
      rw [if_neg (show ¬ s.writep + len = s.size by omega)]
      rfl
    · unfold contents
      dsimp only
      rw [if_neg (by omega), if_neg (by omega)]
      unfold copy_from_user
      rw [htl,
        List.drop_append_eq_append_drop,
        List.drop_of_length_le (by rw [hadlen]; omega),
        hadlen,
        List.drop_drop,
        show s.writep + len + (s.readp - (s.writep + len)) = s.readp by omega,
        List.take_append_of_le_length (by rw [hadlen]),
        List.take_of_length_le (by rw [hadlen])]
      simp only [List.nil_append, List.append_assoc]


/-- A read whose user-space copy fails returns `-EFAULT` and leaves the
state exactly as before (`goto out` before any cursor update). -/
lemma scullp_read_fault (s : scullp) (n : Nat) (h : ¬ readable_size s = 0) :
    scullp_read false s n = (.error .EFAULT, s) := by
  simp only [scullp_read]
  rw [if_neg h]
  rfl

/-- A write whose user-space copy fails returns `-EFAULT` and leaves
the state exactly as before (`goto out` before any cursor or buffer
update). -/
lemma scullp_write_fault (s : scullp) (data : List Nat) (h : ¬ writable_size s = 0) :
    scullp_write false s data = (.error .EFAULT, s) := by
  simp only [scullp_write]
  rw [if_neg h]
  rfl

/-- A zero-length read of a non-empty buffer succeeds, transfers no
bytes and does not move the cursors. -/
lemma scullp_read_zero (s : scullp) (h : wf s) (hr : ¬ readable_size s = 0) :
    scullp_read true s 0 = (.ok [], s) := by
  obtain ⟨hb, hrp, hwp⟩ := h
  simp only [scullp_read]
  rw [if_neg hr]
  have h0 : min 0 (readable_size s) = 0 := Nat.zero_min _
  rw [h0]
  have h1 : (if s.readp > s.writep then min 0 (s.size - s.readp) else 0) = 0 := by
    split
    · exact Nat.zero_min _
    · rfl
  rw [h1, if_neg (show ¬ s.readp + 0 = s.size by omega)]
  rfl

/-- A zero-length write to a non-full buffer succeeds, commits no bytes
and does not move the cursors or change the stored bytes. -/
lemma scullp_write_zero (s : scullp) (h : wf s) (hv : ¬ writable_size s = 0) :
    scullp_write true s [] = (.ok 0, s) := by
  obtain ⟨hb, hrp, hwp⟩ := h
  simp only [scullp_write]
  rw [if_neg hv]
  have h0 : min ([] : List Nat).length (writable_size s) = 0 := Nat.zero_min _
  rw [h0]
  have h1 : (if s.writep ≥ s.readp then min 0 (s.size - s.writep) else 0) = 0 := by
    split
    · exact Nat.zero_min _
    · rfl
  rw [h1, if_neg (show ¬ s.writep + 0 = s.size by omega)]
  show (Except.ok 0, ⟨s.size, s.buffer.take s.writep ++ [] ++ s.buffer.drop (s.writep + 0), s.readp, s.writep + 0⟩) = (Except.ok 0, s)
  rw [List.append_nil, Nat.add_zero, List.take_append_drop]

lemma read_wf (copyOk : Bool) (s : scullp) (n : Nat) (h : wf s) :
    wf (scullp_read copyOk s n).2 := by
  by_cases hr0 : readable_size s = 0
  · rw [scullp_read_empty copyOk s n hr0]
    exact h
  · cases copyOk
    · rw [scullp_read_fault s n hr0]
      exact h
    · rcases Nat.eq_zero_or_pos n with hn | hn
      · subst hn
        rw [scullp_read_zero s h hr0]
        exact h
      · obtain ⟨out, s', heq, hwf', -⟩ := read_step s n h hn (by omega)
        rw [heq]
        exact hwf'

lemma write_wf (copyOk : Bool) (s : scullp) (data : List Nat) (h : wf s) :
    wf (scullp_write copyOk s data).2 := by
  by_cases hv0 : writable_size s = 0
  · rw [scullp_write_full copyOk s data hv0]
    exact h
  · cases copyOk
    · rw [scullp_write_fault s data hv0]
      exact h
    · obtain ⟨len, s', heq, hwf', -⟩ := write_step s data h (by omega)
      rw [heq]
      exact hwf'

lemma writeSeq_spec (ws : List (List Nat)) (s : scullp) (h : wf s) :
    wf (writeSeq s ws).1 ∧ (writeSeq s ws).1.size = s.size ∧
    (writeSeq s ws).1.readp = s.readp ∧
    contents (writeSeq s ws).1 = contents s ++ (writeSeq s ws).2 := by
  induction ws generalizing s with
  | nil => exact ⟨h, rfl, rfl, by simp [writeSeq]⟩
  | cons d ds ih =>
    by_cases hv : writable_size s = 0
    · have heq := scullp_write_full true s d hv
      simp only [writeSeq, heq]
      obtain ⟨h1, h2, h3, h4⟩ := ih s h
      exact ⟨h1, h2, h3, by simpa using h4⟩
    · obtain ⟨len, s', heq, hwf', hsize, hreadp, hlend, hlenv, hpos, hcont⟩ :=
        write_step s d h (by omega)
      simp only [writeSeq, heq]
      obtain ⟨h1, h2, h3, h4⟩ := ih s' hwf'
      refine ⟨h1, by rw [h2, hsize], by rw [h3, hreadp], ?_⟩
      rw [h4, hcont, List.append_assoc]


lemma writeAll_spec (fuel : Nat) (s : scullp) (data : List Nat) (h : wf s)
    (hfuel : data.length ≤ fuel)
    (hroom : (contents s).length + data.length ≤ s.size - 1) :
    ∃ s', writeAll fuel s data = some s' ∧ wf s' ∧ s'.size = s.size ∧
      contents s' = contents s ++ data := by
  induction fuel generalizing s data with
  | zero =>
    have hd : data = [] := List.length_eq_zero.mp (by omega)
    subst hd
    exact ⟨s, rfl, h, rfl, by simp⟩
  | succ fuel ih =>
    match data with
    | [] => exact ⟨s, rfl, h, rfl, by simp⟩
    | d :: ds =>
      have hv : 0 < writable_size s := by
        have h1 := writable_size_eq s h
        have h2 := readable_size_eq_length_contents s h
        simp only [List.length_cons] at hroom
        omega
      obtain ⟨len, s', heq, hwf', hsize, hreadp, hlend, hlenv, hpos, hcont⟩ :=
        write_step s (d :: ds) h hv
      have hlen1 : 0 < len := hpos (by simp)
      simp only [writeAll, heq]
      have hlen2 : ((d :: ds).drop len).length ≤ fuel := by
        simp only [List.length_drop, List.length_cons] at *
        omega
      have hroom' : (contents s').length + ((d :: ds).drop len).length ≤ s'.size - 1 := by
        rw [hcont, hsize]
        simp only [List.length_append, List.length_take, List.length_drop,
          List.length_cons] at *
        omega
      obtain ⟨s'', heq2, hwf'', hsize'', hcont''⟩ := ih s' ((d :: ds).drop len) hwf' hlen2 hroom'
      refine ⟨s'', heq2, hwf'', by rw [hsize'', hsize], ?_⟩
      rw [hcont'', hcont, List.append_assoc, List.take_append_drop]

lemma readAll_spec (fuel : Nat) (s : scullp) (n : Nat) (h : wf s)
    (hfuel : n ≤ fuel) (hn : n ≤ (contents s).length) :
    ∃ s', readAll fuel s n = some ((contents s).take n, s') ∧ wf s' ∧
      contents s' = (contents s).drop n := by
  induction fuel generalizing s n with
  | zero =>
    have h0 : n = 0 := by omega
    subst h0
    exact ⟨s, rfl, h, by simp⟩
  | succ fuel ih =>
    match n with
    | 0 => exact ⟨s, rfl, h, by simp⟩
    | n+1 =>
      have hr : 0 < readable_size s := by
        rw [readable_size_eq_length_contents s h]
        omega
      obtain ⟨out, s', heq, hwf', hsize, -, -, hout0, houtn, houtr, houteq, hcont', -⟩ :=
        read_step s (n+1) h (Nat.succ_pos n) hr
      simp only [readAll, heq]
      have hfuel' : n + 1 - out.length ≤ fuel := by omega
      have hn' : n + 1 - out.length ≤ (contents s').length := by
        rw [hcont', List.length_drop]
        omega
      obtain ⟨s'', heq2, hwf'', hcont''⟩ := ih s' (n + 1 - out.length) hwf' hfuel' hn'
      refine ⟨s'', ?_, hwf'', ?_⟩
      · rw [heq2]
        show some (out ++ (contents s').take (n + 1 - out.length), s'') =
          some ((contents s).take (n + 1), s'')
        rw [hcont']
        conv_rhs => rw [show n + 1 = out.length + (n + 1 - out.length) by omega,
          List.take_add, ← houteq]
      · rw [hcont'', hcont', List.drop_drop]
        congr 1
        omega

/-- C1: for every well-formed channel state both cursors are in range,
`writable_size` equals `capacity - 1 - readable_size` (so
`readable_size + writable_size = capacity - 1`), and well-formedness is
preserved by every read and write call (with any copy outcome and any
request); `scullp_poll` takes the state read-only, so it preserves it
trivially. -/
theorem cursor_invariant (s : scullp) (copyOk : Bool) (n : Nat) (data : List Nat)
    (h : wf s) :
    writable_size s = s.size - 1 - readable_size s ∧
    readable_size s + writable_size s = s.size - 1 ∧
    s.readp < s.size ∧ s.writep < s.size ∧
    wf (scullp_read copyOk s n).2 ∧
    wf (scullp_write copyOk s data).2 := by
  have h1 := writable_size_eq s h
  have h2 := readable_size_lt s h
  have h3 := h
  obtain ⟨hb, hrp, hwp⟩ := h3
  exact ⟨h1, by omega, hrp, hwp, read_wf copyOk s n h, write_wf copyOk s data h⟩

/-- Witness for C1 at a concrete state. -/
theorem cursor_invariant_witness :
    writable_size w1 = w1.size - 1 - readable_size w1 ∧
    readable_size w1 + writable_size w1 = w1.size - 1 ∧
    w1.readp < w1.size ∧ w1.writep < w1.size ∧
    wf (scullp_read true w1 3).2 ∧
    wf (scullp_write true w1 [5]).2 :=
  cursor_invariant w1 true 3 [5] (by decide)

/-- C2 counterexample: after writing `"ABCDEFG"` to a fresh channel of
capacity 8 and reading 7 bytes back, the cursors are *not* both `0`,
and the subsequent 7-byte write does *not* return 7. -/
theorem scenarioA_refuted :
    ¬ (sA2.readp = 0 ∧ sA2.writep = 0 ∧
       (scullp_write true sA2 ABCDEFG).1 = .ok 7) := by decide

/-- C2 as amended: the scenario runs as claimed up to the read, but the
read leaves `readp = writep = 7` (empty, not `0`), and the subsequent
7-byte write is capped by the contiguous tail `size - writep = 1`,
committing and returning only 1 byte. -/
theorem scenarioA_actual :
    (scullp_write true sA0 ABCDEFG).1 = .ok 7 ∧
    (scullp_write true sA1 [72]).1 = .error .EAGAIN ∧
    (scullp_read true sA1 7).1 = .ok ABCDEFG ∧
    sA2.readp = 7 ∧ sA2.writep = 7 ∧ readable_size sA2 = 0 ∧
    (scullp_write true sA2 ABCDEFG).1 = .ok 1 := by decide

/-- C3 counterexample: starting from an *empty* channel whose cursors
sit at offset 6 (capacity 8), two writes commit the 4 bytes
`"WXYZ" = [87, 88, 89, 90]` in order (4 ≤ capacity - 1), but a single
read requesting 4 bytes returns only the 2 bytes before the wrap, not
the concatenation. -/
theorem single_read_after_wrap_refuted :
    (writeSeq sC0 [[87, 88, 89, 90], [89, 90]]).2 = [87, 88, 89, 90] ∧
    (scullp_read true (writeSeq sC0 [[87, 88, 89, 90], [89, 90]]).1 4).1 = .ok [87, 88] ∧
    (scullp_read true (writeSeq sC0 [[87, 88, 89, 90], [89, 90]]).1 4).1 ≠
      .ok [87, 88, 89, 90] := by decide

/-- C3 as amended: on a *freshly initialized* channel (both cursors at
0, so the committed data never wraps), any sequence of writes with no
intervening reads followed by a single read requesting the total
committed size returns exactly the concatenation of the committed
bytes, in order. -/
theorem write_then_read_no_loss (cap : Nat) (b : List Nat) (ws : List (List Nat))
    (hb : b.length = cap) (hcap : 0 < cap)
    (hpos : 0 < (writeSeq ⟨cap, b, 0, 0⟩ ws).2.length) :
    (scullp_read true (writeSeq ⟨cap, b, 0, 0⟩ ws).1
      (writeSeq ⟨cap, b, 0, 0⟩ ws).2.length).1 =
      .ok (writeSeq ⟨cap, b, 0, 0⟩ ws).2 := by
  have hwf0 : wf ⟨cap, b, 0, 0⟩ := ⟨hb, hcap, hcap⟩
  obtain ⟨h1, h2, h3, h4⟩ := writeSeq_spec ws ⟨cap, b, 0, 0⟩ hwf0
  have hc0 : contents ⟨cap, b, 0, 0⟩ = [] := by
    unfold contents
    simp
  rw [hc0, List.nil_append] at h4
  set s1 := (writeSeq ⟨cap, b, 0, 0⟩ ws).1 with hs1
  set c := (writeSeq ⟨cap, b, 0, 0⟩ ws).2 with hc
  have hr : 0 < readable_size s1 := by
    rw [readable_size_eq_length_contents s1 h1, h4]
    exact hpos
  obtain ⟨out, s', heq, -, -, -, -, -, houtn, houtr, houteq, -, hnocap⟩ :=
    read_step s1 c.length h1 hpos hr
  have hk : out.length = c.length := by
    have hmin := hnocap (by rw [h3]; exact Nat.zero_le _)
    rw [hmin, readable_size_eq_length_contents s1 h1, h4, Nat.min_self]
  have hout : out = c := by
    rw [houteq, hk, h4, List.take_length]
  rw [heq, hout]

/-- Witness for C3's amended theorem at a concrete run. -/
theorem write_then_read_no_loss_witness :
    0 < (writeSeq ⟨4, [0, 0, 0, 0], 0, 0⟩ [[1, 2]]).2.length ∧
    (scullp_read true (writeSeq ⟨4, [0, 0, 0, 0], 0, 0⟩ [[1, 2]]).1
      (writeSeq ⟨4, [0, 0, 0, 0], 0, 0⟩ [[1, 2]]).2.length).1 =
      .ok (writeSeq ⟨4, [0, 0, 0, 0], 0, 0⟩ [[1, 2]]).2 :=
  ⟨by decide, write_then_read_no_loss 4 [0, 0, 0, 0] [[1, 2]] rfl (by decide) (by decide)⟩

/-- C4: for every capacity > 2, every starting offset of an empty
channel, and every payload of length between 1 and capacity - 2,
writing the payload (repeating short writes until fully committed) and
then reading it back (repeating short reads, which the wrap cap may
force) reconstructs the payload exactly. -/
theorem round_trip_under_wrap (cap c : Nat) (b P : List Nat)
    (hcap : 2 < cap) (hc : c < cap) (hb : b.length = cap)
    (hP1 : 1 ≤ P.length) (hP2 : P.length ≤ cap - 2) :
    roundTrip ⟨cap, b, c, c⟩ P = some P := by
  have hwf0 : wf ⟨cap, b, c, c⟩ := ⟨hb, hc, hc⟩
  have hc0 : contents ⟨cap, b, c, c⟩ = [] := by
    unfold contents
    simp
  obtain ⟨s1, heq1, hwf1, hsize1, hcont1⟩ :=
    writeAll_spec P.length ⟨cap, b, c, c⟩ P hwf0 le_rfl
      (by rw [hc0]; show 0 + P.length ≤ cap - 1; omega)
  rw [hc0, List.nil_append] at hcont1
  obtain ⟨s2, heq2, -, -⟩ :=
    readAll_spec P.length s1 P.length hwf1 le_rfl (by rw [hcont1])
  unfold roundTrip
  rw [heq1]
  show (readAll P.length s1 P.length).map Prod.fst = some P
  rw [heq2, hcont1]
  simp

/-- Witness for C4 at a concrete wrapping offset. -/
theorem round_trip_under_wrap_witness :
    roundTrip ⟨3, [0, 0, 0], 2, 2⟩ [7] = some [7] :=
  round_trip_under_wrap 3 2 [0, 0, 0] [7] (by omega) (by omega) rfl (by decide) (by decide)

/-- C5: with capacity 8, `readp = 6`, `writep = 2` and `"WXYZ"` stored
at positions 6, 7, 0, 1, a 5-byte read returns exactly the 2 bytes
`"WX"` (contiguous cap `capacity - readp = 2`) and sets `readp` to 0;
a second read of the remaining 3 returns the remaining `"YZ"`. -/
theorem scenarioB_split_read :
    (scullp_read true sB0 5).1 = .ok [87, 88] ∧
    (scullp_read true sB0 5).2.readp = 0 ∧
    (scullp_read true (scullp_read true sB0 5).2 3).1 = .ok [89, 90] := by decide

/-- C6: whenever the user-space byte transfer fails on a read or write
that passed its availability check (the only calls that reach the
transfer step), the call returns `-EFAULT` and the channel state (both
cursors and stored bytes) is exactly unchanged.  Each operation only
needs its own availability: a failed-copy read requires readable data,
a failed-copy write requires writable space. -/
theorem failed_copy_no_commit (s : scullp) (n : Nat) (data : List Nat) :
    (0 < readable_size s → scullp_read false s n = (.error .EFAULT, s)) ∧
    (0 < writable_size s → scullp_write false s data = (.error .EFAULT, s)) :=
  ⟨fun hr => scullp_read_fault s n (by omega),
   fun hw => scullp_write_fault s data (by omega)⟩

/-- Witness for C6: a failed-copy read of a *full* channel and a
failed-copy write to an *empty* channel (the initial state), the two
extreme states the claim covers. -/
theorem failed_copy_no_commit_witness :
    scullp_read false wFull 2 = (.error .EFAULT, wFull) ∧
    scullp_write false wEmpty [5] = (.error .EFAULT, wEmpty) :=
  ⟨(failed_copy_no_commit wFull 2 [5]).1 (by decide),
   (failed_copy_no_commit wEmpty 2 [5]).2 (by decide)⟩

/-- C7 counterexample: a zero-length read and a zero-length write on a
channel with data and space available *succeed* (returning 0 bytes),
rather than failing with any error: the code has no `-EINVAL`
(`InvalidArgument`) path at all. -/
theorem zero_length_not_rejected :
    scullp_read true w7 0 = (.ok [], w7) ∧
    scullp_write true w7 [] = (.ok 0, w7) := by decide

/-- C7 as amended: a zero-length request is not rejected as invalid:
when the availability predicate holds it succeeds transferring 0 bytes
and leaves the state unchanged; when it does not, it fails with
`-EAGAIN` (WouldBlock) like any other non-blocking request. -/
theorem zero_length_request (s : scullp) (h : wf s) :
    (0 < readable_size s → scullp_read true s 0 = (.ok [], s)) ∧
    (readable_size s = 0 → scullp_read true s 0 = (.error .EAGAIN, s)) ∧
    (0 < writable_size s → scullp_write true s [] = (.ok 0, s)) ∧
    (writable_size s = 0 → scullp_write true s [] = (.error .EAGAIN, s)) :=
  ⟨fun hr => scullp_read_zero s h (by omega),
   fun hr => scullp_read_empty true s 0 hr,
   fun hv => scullp_write_zero s h (by omega),
   fun hv => scullp_write_full true s [] hv⟩

/-- Witness for C7's amended theorem. -/
theorem zero_length_request_witness :
    scullp_read true w7 0 = (.ok [], w7) ∧
    scullp_write true w7 [] = (.ok 0, w7) :=
  ⟨(zero_length_request w7 (by decide)).1 (by decide),
   (zero_length_request w7 (by decide)).2.2.1 (by decide)⟩

/-- C8: evaluating the init loop at the failing input `N = 4`, all
allocations succeeding, device registration failing at slot `k = 1`:
the rollback terminates only slots `0..k-1`, so slot `k = 1` itself is
left with its storage allocated (`Active`), contradicting the claim
that no channel remains Active. (On an *allocation* failure at slot `k`
the claim does hold, since slot `k` never becomes Active; the theorem's
second conjunct shows that branch for contrast.) -/
theorem scullp_init_rollback_leak :
    scullp_init 4 (fun _ => false) (fun j => j == 1) =
      (some 1, [.terminated, .active, .uninit, .uninit]) ∧
    scullp_init 4 (fun j => j == 1) (fun _ => false) =
      (some 1, [.terminated, .uninit, .uninit, .uninit]) := by decide

/-- C9: the poll mask has `POLLIN`/`POLLRDNORM` set exactly when
`readable_size > 0` and `POLLOUT`/`POLLWRNORM` set exactly when
`writable_size > 0`; `scullp_poll` is a pure function of the state, so
it changes neither cursor nor the stored bytes. -/
theorem poll_readiness (s : scullp) :
    (scullp_poll s &&& POLLIN ≠ 0 ↔ 0 < readable_size s) ∧
    (scullp_poll s &&& POLLRDNORM ≠ 0 ↔ 0 < readable_size s) ∧
    (scullp_poll s &&& POLLOUT ≠ 0 ↔ 0 < writable_size s) ∧
    (scullp_poll s &&& POLLWRNORM ≠ 0 ↔ 0 < writable_size s) := by
  unfold scullp_poll
  by_cases h1 : 0 < readable_size s <;> by_cases h2 : 0 < writable_size s <;>
    simp only [h1, h2, if_true, if_false, iff_true, iff_false, not_lt,
      Nat.le_zero] <;> refine ⟨?_, ?_, ?_, ?_⟩ <;> decide

/-- C10: every read or write that passes its own availability check
with a positive request transfers at least 1 byte and at most the
requested length; in particular a successful read of a non-empty
channel never returns 0 bytes, so a zero return cannot be mistaken for
end-of-stream.  Each operation only needs its own availability: a read
requires readable data, a write requires writable space. -/
theorem transfer_at_least_one (s : scullp) (n : Nat) (data : List Nat) (h : wf s)
    (hn : 0 < n) (hd : 0 < data.length) :
    (0 < readable_size s →
      ∃ out, (scullp_read true s n).1 = .ok out ∧ 1 ≤ out.length ∧ out.length ≤ n) ∧
    (0 < writable_size s →
      ∃ len, (scullp_write true s data).1 = .ok len ∧ 1 ≤ len ∧ len ≤ data.length) := by
  constructor
  · intro hr
    obtain ⟨out, s', heq, -, -, -, -, ho1, ho2, -, -, -, -⟩ := read_step s n h hn hr
    exact ⟨out, by rw [heq], ho1, ho2⟩
  · intro hw
    obtain ⟨len, t', heqw, -, -, -, hl1, -, hl2, -⟩ := write_step s data h hw
    exact ⟨len, by rw [heqw], hl2 hd, hl1⟩

/-- Witness for C10: a read of a *full* channel and a write to an
*empty* channel (the initial state), the two extreme states the claim
covers. -/
theorem transfer_at_least_one_witness :
    (∃ out, (scullp_read true wFull 1).1 = .ok out ∧ 1 ≤ out.length ∧ out.length ≤ 1) ∧
    (∃ len, (scullp_write true wEmpty [5]).1 = .ok len ∧ 1 ≤ len ∧ len ≤ [5].length) :=
  ⟨(transfer_at_least_one wFull 1 [5] (by decide) (by decide) (by decide)).1 (by decide),
   (transfer_at_least_one wEmpty 1 [5] (by decide) (by decide) (by decide)).2 (by decide)⟩

end Scullp
